import Mathlib

/-!
A shallow embedding of the transcription pipeline of `whisper_mlx`
(src/transcription.py and src/main.py), with theorems settling the claims
about it.

Conventions of the embedding:
* Python text is `String` / `List Char`.  Python's regex classes are
  modelled on the alphabets this program processes: `\w` as ASCII
  letters, digits, `_` and Hangul syllables, `\s` as ASCII whitespace.
* The backreference substitutions `re.sub(r'(\b\w+(\s+\w+)*\b)(\s+\1\b)+', r'\1', s)`
  (TextProcessor.cleanup / repetition patterns) are modelled by a
  dedicated scanner (`pySub`) implementing leftmost, greedy,
  non-overlapping matching of exactly that pattern shape: a phrase of k
  maximal word runs separated by whitespace runs, followed by one or more
  whitespace-plus-literal-copy repeats; the English patterns carry the
  word-boundary conditions, the Hangul patterns do not (as in the source).
* Python floats enter only through thresholds (`0.8`, `* 0.5`) whose
  comparisons are exact at the integer sizes involved; they are modelled
  by exact rational/integer comparisons.
* `time.time()` values are passed in as explicit rational parameters.
* Model inference, translation and Python's `hash` are external
  capabilities; they are parameters of the model (`TranscriberEnv`).
-/

/-- Python `\s` (ASCII part): the whitespace characters the pipeline meets. -/
def isPySpace (c : Char) : Bool :=
  c = ' ' || c = '\t' || c = '\n' || c = '\r' || c = '\x0b' || c = '\x0c'

/-- Python `\w` restricted to the scripts this program processes:
ASCII letters, digits, underscore, and Hangul syllables. -/
def isPyWordChar (c : Char) : Bool :=
  ('a' ≤ c && c ≤ 'z') || ('A' ≤ c && c ≤ 'Z') || ('0' ≤ c && c ≤ '9') ||
    c = '_' || ('가' ≤ c && c ≤ '힣')

/-- The character class `[가-힣]` of the Korean repetition patterns. -/
def isHangulChar (c : Char) : Bool :=
  '가' ≤ c && c ≤ '힣'

/-- `str.strip()`: drop leading and trailing whitespace. -/
def pyStrip (l : List Char) : List Char :=
  ((l.dropWhile isPySpace).reverse.dropWhile isPySpace).reverse

/-- `re.sub(r'\s+', ' ', s)`: each maximal whitespace run becomes one space. -/
def collapseSpacesGo : Nat → List Char → List Char
  | 0, l => l
  | _ + 1, [] => []
  | fuel + 1, c :: rest =>
    if isPySpace c then ' ' :: collapseSpacesGo fuel (rest.dropWhile isPySpace)
    else c :: collapseSpacesGo fuel rest

def collapseSpaces (l : List Char) : List Char :=
  collapseSpacesGo (l.length + 1) l

/-- The character class `[\s.,!?]` of the boundary-trimming patterns. -/
def isTrimChar (c : Char) : Bool :=
  isPySpace c || c = '.' || c = ',' || c = '!' || c = '?'

/-- `re.sub(r'[\s.,!?]+$', '', s)`: drop the maximal trailing run of `[\s.,!?]`. -/
def stripTrailingTrim (l : List Char) : List Char :=
  (l.reverse.dropWhile isTrimChar).reverse

/-- `re.sub(r'^[\s.,!?]+', '', s)`: drop the maximal leading run of `[\s.,!?]`. -/
def stripLeadingTrim (l : List Char) : List Char :=
  l.dropWhile isTrimChar

/-- `re.sub(r'[c]{2,}', rep, s)`: each maximal run of two or more `c`
becomes `rep`; single occurrences stay. -/
def collapseRunGo (c : Char) (rep : List Char) : Nat → List Char → List Char
  | 0, l => l
  | _ + 1, [] => []
  | fuel + 1, x :: rest =>
    if x = c then
      if rest.takeWhile (fun d => d = c) = [] then
        x :: collapseRunGo c rep fuel rest
      else
        rep ++ collapseRunGo c rep fuel (rest.dropWhile (fun d => d = c))
    else x :: collapseRunGo c rep fuel rest

def collapseRun (c : Char) (rep : List Char) (l : List Char) : List Char :=
  collapseRunGo c rep (l.length + 1) l

/-- The cleanup_patterns of TextProcessor, applied in source order. -/
def cleanupText (l : List Char) : List Char :=
  collapseRun '?' ['?', '?']
    (collapseRun '!' ['!', '!']
      (collapseRun ',' [',']
        (collapseRun '.' ['.', '.', '.']
          (stripLeadingTrim (stripTrailingTrim (collapseSpaces l))))))

/-- Head of a char list is a `\w` character (for the `\b` after `\1`). -/
def headIsWord : List Char → Bool
  | [] => false
  | c :: _ => isPyWordChar c

/-- Group 1 of a repetition pattern at the current position: k maximal
`tok` runs separated by maximal whitespace runs.  (For this pattern shape,
greedy matching with backtracking is forced to exactly these runs: a
shortened token run would be followed by a token character where the
pattern requires whitespace or a boundary.)  Returns the matched
characters and the rest. -/
def parseGroup1 (tok : Char → Bool) : Nat → List Char → Option (List Char × List Char)
  | 0, _ => none
  | 1, l =>
    if l.takeWhile tok = [] then none
    else some (l.takeWhile tok, l.dropWhile tok)
  | Nat.succ (Nat.succ k), l =>
    if l.takeWhile tok = [] then none
    else
      let rest := l.dropWhile tok
      if rest.takeWhile isPySpace = [] then none
      else
        match parseGroup1 tok (Nat.succ k) (rest.dropWhile isPySpace) with
        | none => none
        | some (g, rest3) =>
          some (l.takeWhile tok ++ rest.takeWhile isPySpace ++ g, rest3)

/-- Greedy count of `(\s+\1\b)+` repeats after group 1: each repeat is a
nonempty whitespace run followed by a literal copy of g; with `useB` the
copy must end at a word boundary (English patterns); without, a copy may
end inside a longer word (Korean patterns have no trailing `\b`). -/
def parseReps (g : List Char) (useB : Bool) : Nat → List Char → Nat × List Char
  | 0, l => (0, l)
  | fuel + 1, l =>
    if l.takeWhile isPySpace = [] then (0, l)
    else
      let rest := l.dropWhile isPySpace
      if rest.take g.length = g then
        let rest2 := rest.drop g.length
        if useB && headIsWord rest2 then (0, l)
        else
          let p := parseReps g useB fuel rest2
          (p.1 + 1, p.2)
      else (0, l)

/-- One scanning step of `re.sub` for the repetition patterns: try a match
at the current position (leftmost), emit the replacement `\1` and resume
after the match, or emit one character and move on.  `prevW` records
whether the previous character of the original string is a word
character (for the leading `\b` of the English patterns). -/
def scanSub (tok : Char → Bool) (k : Nat) (useB : Bool) : Nat → List Char → Bool → List Char
  | 0, l, _ => l
  | _ + 1, [], _ => []
  | fuel + 1, c :: rest, prevW =>
    let attempt : Option (List Char × List Char) :=
      if useB && prevW then none
      else
        match parseGroup1 tok k (c :: rest) with
        | none => none
        | some (g, rest2) =>
          match parseReps g useB (rest2.length + 1) rest2 with
          | (0, _) => none
          | (_ + 1, rest3) => some (g, rest3)
    match attempt with
    | some (g, rest3) => g ++ scanSub tok k useB fuel rest3 (headIsWord g.reverse)
    | none => c :: scanSub tok k useB fuel rest (isPyWordChar c)

/-- `re.sub` of one repetition pattern over a whole string. -/
def pySub (tok : Char → Bool) (k : Nat) (useB : Bool) (l : List Char) : List Char :=
  scanSub tok k useB (l.length + 1) l false

/-- The word and phrase repetition passes of process_text, in source
order: single word, English phrases of 2..5 words, Korean phrases of
2..5 eojeol. -/
def repetitionPasses (l : List Char) : List Char :=
  pySub isHangulChar 5 false
    (pySub isHangulChar 4 false
      (pySub isHangulChar 3 false
        (pySub isHangulChar 2 false
          (pySub isPyWordChar 5 true
            (pySub isPyWordChar 4 true
              (pySub isPyWordChar 3 true
                (pySub isPyWordChar 2 true
                  (pySub isPyWordChar 1 true l))))))))

/-- `str.split()`: maximal nonempty runs of non-whitespace. -/
def pySplitGo : Nat → List Char → List String
  | 0, _ => []
  | _ + 1, [] => []
  | fuel + 1, l =>
    let l1 := l.dropWhile isPySpace
    if l1.takeWhile (fun c => !isPySpace c) = [] then []
    else
      String.mk (l1.takeWhile (fun c => !isPySpace c)) ::
        pySplitGo fuel (l1.dropWhile (fun c => !isPySpace c))

def pySplit (l : List Char) : List String :=
  pySplitGo (l.length + 1) l

/-- `' '.join(words)`. -/
def joinWords : List String → List Char
  | [] => []
  | [w] => w.data
  | w :: v :: ws => w.data ++ ' ' :: joinWords (v :: ws)

/-- The inner `for j in range(i+ws, len-ws+1, ws)` loop of
_remove_korean_repetitions: follow consecutive equal windows, update
skip_to at each match, break at the first mismatch.  Returns
(repetition_found, skip_to). -/
def koScanJ (words : List String) (ws : Nat) (curr : List String) :
    Nat → Nat → Bool → Int → Bool × Int
  | 0, _, found, skip => (found, skip)
  | fuel + 1, j, found, skip =>
    if j + ws ≤ words.length then
      if (words.drop j).take ws = curr then
        koScanJ words ws curr fuel (j + ws) true ((j : Int) + (ws : Int))
      else (found, skip)
    else (found, skip)

/-- The outer while-loop of _remove_korean_repetitions for one window
size: accumulate `result`, jumping over detected repetitions. -/
def koLoopGo (words : List String) (ws : Nat) :
    Nat → Nat → List String → Int → List String
  | 0, _, result, _ => result
  | fuel + 1, i, result, skip =>
    if i < words.length then
      if (i : Int) < skip then koLoopGo words ws fuel (i + 1) result skip
      else
        let curr := (words.drop i).take ws
        let fs := koScanJ words ws curr (words.length + 1) (i + ws) false skip
        if fs.1 then koLoopGo words ws fuel fs.2.toNat (result ++ curr) fs.2
        else koLoopGo words ws fuel (i + 1) (result ++ [words.getD i ""]) fs.2
    else result

/-- One window-size pass of _remove_korean_repetitions (skipped when the
word list is shorter than twice the window). -/
def koWindowPass (words : List String) (ws : Nat) : List String :=
  if words.length < ws * 2 then words
  else koLoopGo words ws (words.length + 1) 0 [] (-1)

/-- TextProcessor._remove_korean_repetitions: the windowed repetition
pass over window sizes 2..6; texts of fewer than 6 words are returned
unchanged. -/
def remove_korean_repetitions (l : List Char) : List Char :=
  let words := pySplit l
  if words.length < 6 then l
  else joinWords ([2, 3, 4, 5, 6].foldl koWindowPass words)

/-- The normalization part of TextProcessor.process_text: strip, the
cleanup patterns, the repetition patterns, then the windowed pass. -/
def normalizeText (s : String) : String :=
  String.mk (remove_korean_repetitions (repetitionPasses (cleanupText (pyStrip s.data))))

/-- `set(text.split())` as a duplicate-free list. -/
def tokenSet (s : String) : List String :=
  (pySplit s.data).dedup

/-- `len(words1.intersection(words2))`. -/
def interCount (a b : String) : Nat :=
  ((tokenSet a).filter (fun w => (tokenSet b).contains w)).length

/-- `len(words1.union(words2))`. -/
def unionCount (a b : String) : Nat :=
  ((tokenSet a) ++ (tokenSet b)).dedup.length

/-- TextProcessor._is_duplicate: exact match against any recent text,
else Jaccard similarity over token sets against the most recent one,
guarded by the length-difference test.  `abs(len(a)-len(b)) > min*0.5`
and `similarity > 0.8` are exact as integer comparisons. -/
def is_duplicate (recents : List String) (text : String) : Bool :=
  if recents = [] then false
  else if recents.contains text then true
  else
    let latest := (recents.getLast?).getD ""
    if min text.length latest.length <
        2 * ((text.length : Int) - (latest.length : Int)).natAbs then false
    else if tokenSet text = [] ∨ tokenSet latest = [] then false
    else if 4 * unionCount text latest < 5 * interCount text latest then true
    else false

/-- `deque(maxlen=5).append`: the recent-texts memory keeps the last 5. -/
def pushRecent (recents : List String) (t : String) : List String :=
  if 5 < (recents ++ [t]).length then (recents ++ [t]).tail else recents ++ [t]

/-- TextProcessor.process_text: empty/whitespace input yields nothing;
otherwise normalize, reject duplicates, else append to the recent memory
and return the processed text.  Returns (published text, new memory). -/
def process_text (recents : List String) (text : String) : Option String × List String :=
  if text = "" ∨ String.mk (pyStrip text.data) = "" then (none, recents)
  else if is_duplicate recents (normalizeText text) then (none, recents)
  else (some (normalizeText text), pushRecent recents (normalizeText text))

/-- Result of the speech-recognition capability (_transcribe_audio):
raw text, detected language code, confidence. -/
structure RawTranscription where
  text : String
  language : String
  confidence : ℚ
deriving DecidableEq

/-- Result of the translation capability (_translate_text). -/
structure TranslationResult where
  text : String
  source_lang : String
  target_lang : String
  duration : ℚ
deriving DecidableEq

/-- The result dictionary process_audio assembles. -/
structure TranscriptionResult where
  text : String
  language : String
  language_name : String
  confidence : ℚ
  duration : ℚ
  audio_duration : ℚ
  timestamp : ℚ
  translation : Option TranslationResult
deriving DecidableEq

/-- SUPPORTED_LANGUAGES of src/transcription.py. -/
def SUPPORTED_LANGUAGES : List (String × String) :=
  [("ko", "한국어"), ("en", "영어"), ("ja", "일본어"), ("zh", "중국어"),
   ("es", "스페인어"), ("fr", "프랑스어"), ("de", "독일어"), ("it", "이탈리아어"),
   ("ru", "러시아어"), ("ar", "아랍어"), ("hi", "힌디어"), ("pt", "포르투갈어"),
   ("nl", "네덜란드어"), ("tr", "터키어"), ("pl", "폴란드어"), ("vi", "베트남어"),
   ("th", "태국어"), ("id", "인도네시아어")]

/-- `SUPPORTED_LANGUAGES.get(code)`. -/
def supportedLanguageName (code : String) : Option String :=
  ((SUPPORTED_LANGUAGES.find? (fun p => p.1 = code)).map (fun p => p.2))

/-- An audio segment dictionary as process_audio reads it: the sample
bytes (`audio.tobytes()`, absent when the key is missing) and duration. -/
structure AudioSegment where
  audio : Option (List (Fin 256))
  duration : ℚ
deriving DecidableEq

/-- The external capabilities and configuration of WhisperTranscriber:
Python's `hash` over the sample bytes, the speech model, the translator,
and the translation settings. -/
structure TranscriberEnv where
  hashFn : List (Fin 256) → Int
  recognize : List (Fin 256) → Option RawTranscription
  translateFn : String → String → Option TranslationResult
  translator_enabled : Bool
  translate_to : String

/-- `str(hash(audio_data.tobytes()))`: `str` is injective on integers, so
the key is kept as the integer hash value. -/
def cacheKeyOf (hashFn : List (Fin 256) → Int) (bytes : List (Fin 256)) : Int :=
  hashFn bytes

/-- The mutable state of WhisperTranscriber: the insertion-ordered cache
dictionary, the stats dictionary, and the TextProcessor's recent-texts
memory. -/
structure TranscriberState where
  cache : List (Int × TranscriptionResult)
  total_processed : Nat
  cache_hits : Nat
  avg_processing_time : ℚ
  language_counts : List (String × Nat)
  success_rate : ℚ
  recent_texts : List String
deriving DecidableEq

/-- WhisperTranscriber.__init__: empty cache, zeroed stats, success rate 1. -/
def initialTranscriberState : TranscriberState :=
  { cache := [], total_processed := 0, cache_hits := 0,
    avg_processing_time := 0, language_counts := [], success_rate := 1,
    recent_texts := [] }

/-- Dictionary lookup in the insertion-ordered cache. -/
def lookupCache : List (Int × TranscriptionResult) → Int → Option TranscriptionResult
  | [], _ => none
  | p :: rest, key => if key = p.1 then some p.2 else lookupCache rest key

/-- `language_counts` update: bump an existing language in place, append
a new one (Python dicts keep insertion order). -/
def bumpCount : List (String × Nat) → String → List (String × Nat)
  | [], lang => [(lang, 1)]
  | p :: rest, lang =>
    if p.1 = lang then (p.1, p.2 + 1) :: rest else p :: bumpCount rest lang

/-- The result process_audio assembles on a successful transcription
(procTime = `time.time() - start_time`, tStamp = `time.time()`). -/
def mkResult (env : TranscriberEnv) (procTime tStamp : ℚ) (seg : AudioSegment)
    (raw : RawTranscription) (p : String) : TranscriptionResult :=
  { text := p,
    language := raw.language,
    language_name := (supportedLanguageName raw.language).getD raw.language,
    confidence := raw.confidence,
    duration := procTime,
    audio_duration := seg.duration,
    timestamp := tStamp,
    translation :=
      if env.translator_enabled &&
          !(raw.language = env.translate_to : Bool) &&
          (supportedLanguageName raw.language).isSome
      then env.translateFn p raw.language else none }

/-- The single locked statistics-and-cache update of process_audio on a
successful transcription: total_processed, running average, per-language
count, cache insert, FIFO eviction of the oldest entry past 100. -/
def succUpdate (procTime : ℚ) (key : Int) (r : TranscriptionResult)
    (recents2 : List String) (st : TranscriberState) : TranscriberState :=
  { cache :=
      if 100 < (st.cache ++ [(key, r)]).length then (st.cache ++ [(key, r)]).tail
      else st.cache ++ [(key, r)],
    total_processed := st.total_processed + 1,
    cache_hits := st.cache_hits,
    avg_processing_time :=
      (st.avg_processing_time * ((st.total_processed + 1 : ℚ) - 1) + procTime) /
        (st.total_processed + 1 : ℚ),
    language_counts := bumpCount st.language_counts r.language,
    success_rate := st.success_rate,
    recent_texts := recents2 }

/-- WhisperTranscriber.process_audio.  Returns (result, new state).
`recognize` stands for _transcribe_audio, which returns nothing when the
model produced no usable text; translation failure is already an Option;
the exception branch of the source (success-rate decay) has no reachable
trigger in this pure model, every callee catching its own exceptions. -/
def process_audio (env : TranscriberEnv) (procTime tStamp : ℚ) (seg : AudioSegment)
    (st : TranscriberState) : Option TranscriptionResult × TranscriberState :=
  match seg.audio with
  | none => (none, st)
  | some bytes =>
    if bytes = [] then (none, st)
    else
      match lookupCache st.cache (cacheKeyOf env.hashFn bytes) with
      | some r => (some r, { st with cache_hits := st.cache_hits + 1 })
      | none =>
        match env.recognize bytes with
        | none => (none, st)
        | some raw =>
          match process_text st.recent_texts raw.text with
          | (none, recents2) => (none, { st with recent_texts := recents2 })
          | (some p, recents2) =>
            if p = "" then (none, { st with recent_texts := recents2 })
            else
              let r := mkResult env procTime tStamp seg raw p
              (some r, succUpdate procTime (cacheKeyOf env.hashFn bytes) r recents2 st)

/-- TranscriptionManager.max_history. -/
def max_history : Nat := 100

/-- The locked history update of TranscriptionManager.process_segment:
append, then pop the oldest entry past max_history. -/
def historyAppend (hist : List TranscriptionResult) (r : TranscriptionResult) :
    List TranscriptionResult :=
  if max_history < (hist ++ [r]).length then (hist ++ [r]).tail else hist ++ [r]

/-- TranscriptionManager.process_segment over (transcriber state, history). -/
def process_segment (env : TranscriberEnv) (procTime tStamp : ℚ) (seg : AudioSegment)
    (s : TranscriberState × List TranscriptionResult) :
    Option TranscriptionResult × (TranscriberState × List TranscriptionResult) :=
  match process_audio env procTime tStamp seg s.1 with
  | (none, st2) => (none, (st2, s.2))
  | (some r, st2) => (some r, (st2, historyAppend s.2 r))

/-- A state observable between critical sections: the fields a concurrent
reader of the statistics, the cache and the session history could see. -/
structure ObsState where
  total_processed : Nat
  cache_hits : Nat
  cache : List (Int × TranscriptionResult)
  history : List TranscriptionResult
deriving DecidableEq

def mkObs (st : TranscriberState) (hist : List TranscriptionResult) : ObsState :=
  { total_processed := st.total_processed, cache_hits := st.cache_hits,
    cache := st.cache, history := hist }

/-- The observable states of one process_segment call, one per critical
section boundary: the initial state; after process_audio's single locked
statistics-and-cache update (under WhisperTranscriber._lock); after the
separate locked history append (under TranscriptionManager._lock).
A call that publishes nothing performs no locked update of these fields. -/
def process_segment_observables (env : TranscriberEnv) (procTime tStamp : ℚ)
    (seg : AudioSegment) (st : TranscriberState) (hist : List TranscriptionResult) :
    List ObsState :=
  match process_audio env procTime tStamp seg st with
  | (none, _) => [mkObs st hist]
  | (some r, st2) => [mkObs st hist, mkObs st2 hist, mkObs st2 (historyAppend hist r)]

/-- The transcription worker's drain loop (main.py
_transcribe_segments_workflow) once the stop flag is set: with
`while not stop_event.is_set() or not segment_queue.empty()`, the worker
keeps dequeuing and processing until the queue is empty, then exits.
Returns the final state and the published results, in FIFO order. -/
def transcribeWorkerDrain (env : TranscriberEnv) (procTime tStamp : ℚ) :
    List AudioSegment → TranscriberState × List TranscriptionResult →
    (TranscriberState × List TranscriptionResult) × List TranscriptionResult
  | [], s => (s, [])
  | seg :: rest, s =>
    let step := process_segment env procTime tStamp seg s
    let tailRun := transcribeWorkerDrain env procTime tStamp rest step.2
    (tailRun.1, step.1.toList ++ tailRun.2)

/-- The actions of RealTimeTranscriber._cleanup, in source order: shut
the caption client down, auto-save when configured, print the summary.
The worker threads are daemon threads; no join of them appears. -/
inductive CleanupAction where
  | shutdownCaptionClient
  | saveTranscript
  | printSummary
  | joinWorkerThreads
deriving DecidableEq

def cleanupActions (saveConfigured : Bool) : List CleanupAction :=
  [CleanupAction.shutdownCaptionClient] ++
    (if saveConfigured then [CleanupAction.saveTranscript] else []) ++
    [CleanupAction.printSummary]

/-- The parameters TranscriptionManager.__init__ accepts (besides self);
it takes no **kwargs. -/
def transcriptionManagerInitParams : List String :=
  ["model_name", "use_faster_whisper", "translator_enabled", "translate_to"]

/-- The keyword arguments RealTimeTranscriber.initialize_components
passes to TranscriptionManager(...). -/
def transcriptionManagerCallKwargs : List String :=
  ["model_name", "use_faster_whisper", "translator_enabled", "translate_to",
   "max_history"]

/-- Python call binding: a keyword argument whose name is no parameter of
a function without **kwargs raises TypeError. -/
def pyKwargsBindOk (params kwargs : List String) : Bool :=
  kwargs.all (fun k => params.contains k)

/-- RealTimeTranscriber.initialize_components, abstracted over whether
the steps before the TranscriptionManager construction succeed: the
constructor call must bind its keyword arguments, a TypeError is caught
by the surrounding `except Exception` and the method returns False. -/
def initializeComponentsSucceeds (earlierStepsOk : Bool) : Bool :=
  earlierStepsOk &&
    pyKwargsBindOk transcriptionManagerInitParams transcriptionManagerCallKwargs

/-- CPython's `hash` of a bytes object is a platform integer: it lives in
a bounded range of size at most 2^64. -/
def PyHashBounded (hashFn : List (Fin 256) → Int) : Prop :=
  ∀ b, -(2 ^ 63) ≤ hashFn b ∧ hashFn b < 2 ^ 63

/-! ## Helper lemmas -/

theorem mem_pushRecent_self (recents : List String) (t : String) :
    t ∈ pushRecent recents t := by
  unfold pushRecent
  split
  · cases recents with
    | nil => simp at *
    | cons a as => simp
  · simp

theorem interCount_pos_sets (a b : String)
    (h : 4 * unionCount a b < 5 * interCount a b) :
    ¬ (tokenSet a = [] ∨ tokenSet b = []) := by
  have hI : 0 < interCount a b := by
    by_contra hc
    have : interCount a b = 0 := by omega
    omega
  rcases hw : (tokenSet a).filter (fun w => (tokenSet b).contains w) with _ | ⟨w, ws⟩
  · exfalso
    have hz : interCount a b = 0 := by unfold interCount; rw [hw]; rfl
    omega
  · have hwa : w ∈ (tokenSet a).filter (fun w => (tokenSet b).contains w) := by
      rw [hw]; exact List.mem_cons_self w ws
    have hmem := List.of_mem_filter hwa
    have hma : w ∈ tokenSet a := List.mem_of_mem_filter hwa
    have hb : tokenSet b ≠ [] := by
      intro hbnil
      rw [hbnil] at hmem
      simp [List.contains] at hmem
    have ha2 : tokenSet a ≠ [] := by
      intro hanil
      rw [hanil] at hma
      simp at hma
    intro hcon
    cases hcon with
    | inl hx => exact ha2 hx
    | inr hx => exact hb hx

theorem is_duplicate_of_mem (recents : List String) (p : String) (h : p ∈ recents) :
    is_duplicate recents p = true := by
  unfold is_duplicate
  have hne : recents ≠ [] := List.ne_nil_of_mem h
  rw [if_neg hne]
  have hc : recents.contains p = true := by
    simpa [List.contains] using h
  rw [if_pos hc]

theorem is_duplicate_of_similar (recents : List String) (p latest : String)
    (hl : recents.getLast? = some latest)
    (hlen : 2 * ((p.length : Int) - (latest.length : Int)).natAbs ≤
      min p.length latest.length)
    (hsim : 4 * unionCount p latest < 5 * interCount p latest) :
    is_duplicate recents p = true := by
  have hne : recents ≠ [] := by
    intro hc
    rw [hc] at hl
    simp at hl
  unfold is_duplicate
  rw [if_neg hne]
  by_cases hc : recents.contains p
  · rw [if_pos hc]
  · rw [if_neg (by simpa using hc)]
    simp only [hl, Option.getD_some]
    rw [if_neg (by omega)]
    rw [if_neg (interCount_pos_sets p latest hsim)]
    rw [if_pos hsim]

/-- Claim C2: process_text publishes nothing when the normalized text
exactly equals one of the last 5 accepted texts, or when its Jaccard
similarity over token sets with the most recent accepted text exceeds
0.8 while the character-length difference is at most 50% of the shorter
length; consequently feeding the same text twice in a row publishes
exactly one result. -/
theorem process_text_duplicate_suppression :
    (∀ recents x, normalizeText x ∈ recents → (process_text recents x).1 = none) ∧
    (∀ recents x latest, recents.getLast? = some latest →
      2 * (((normalizeText x).length : Int) - (latest.length : Int)).natAbs ≤
        min (normalizeText x).length latest.length →
      4 * unionCount (normalizeText x) latest <
        5 * interCount (normalizeText x) latest →
      (process_text recents x).1 = none) ∧
    (∀ recents t p recents2, process_text recents t = (some p, recents2) →
      (process_text recents2 t).1 = none) := by
  refine ⟨?_, ?_, ?_⟩
  · intro recents x hmem
    unfold process_text
    by_cases hg : x = "" ∨ String.mk (pyStrip x.data) = ""
    · rw [if_pos hg]
    · rw [if_neg hg, if_pos (is_duplicate_of_mem recents _ hmem)]
  · intro recents x latest hl hlen hsim
    unfold process_text
    by_cases hg : x = "" ∨ String.mk (pyStrip x.data) = ""
    · rw [if_pos hg]
    · rw [if_neg hg, if_pos (is_duplicate_of_similar recents _ latest hl hlen hsim)]
  · intro recents t p recents2 h
    unfold process_text at h ⊢
    by_cases hg : t = "" ∨ String.mk (pyStrip t.data) = ""
    · rw [if_pos hg] at h
      simp at h
    · rw [if_neg hg] at h ⊢
      by_cases hd : is_duplicate recents (normalizeText t)
      · rw [if_pos hd] at h
        simp at h
      · rw [if_neg hd] at h
        have h2 : pushRecent recents (normalizeText t) = recents2 := congrArg Prod.snd h
        rw [← h2]
        rw [if_pos (is_duplicate_of_mem _ _ (mem_pushRecent_self recents (normalizeText t)))]

/-- Claim C2 witness: a concrete duplicate is rejected. -/
theorem process_text_duplicate_suppression_witness :
    (process_text ["hello world"] "hello world").1 = none :=
  process_text_duplicate_suppression.1 ["hello world"] "hello world" (by decide)

/-- Claim C3: text normalization is not idempotent.  On
"a b a b c b c" the two-word collapse leaves the junction repetition
"b c b c", which the windowed pass skips (fewer than 6 words); a second
application collapses it further. -/
theorem normalizeText_not_idempotent :
    normalizeText "a b a b c b c" = "a b c b c" ∧
    normalizeText (normalizeText "a b a b c b c") = "a b c" ∧
    normalizeText (normalizeText "a b a b c b c") ≠ normalizeText "a b a b c b c" := by
  refine ⟨by decide, by decide, by decide⟩

theorem lookupCache_append_self (l : List (Int × TranscriptionResult)) (k : Int)
    (v : TranscriptionResult) (h : lookupCache l k = none) :
    lookupCache (l ++ [(k, v)]) k = some v := by
  induction l with
  | nil => simp [lookupCache]
  | cons p rest ih =>
    rw [List.cons_append]
    unfold lookupCache at h ⊢
    by_cases hk : k = p.1
    · rw [if_pos hk] at h
      cases h
    · rw [if_neg hk] at h ⊢
      exact ih h

theorem lookupCache_tail_of_none (l : List (Int × TranscriptionResult)) (k : Int)
    (h : lookupCache l k = none) : lookupCache l.tail k = none := by
  cases l with
  | nil => exact h
  | cons p rest =>
    unfold lookupCache at h
    by_cases hk : k = p.1
    · rw [if_pos hk] at h
      cases h
    · rw [if_neg hk] at h
      exact h

theorem lookupCache_succUpdate (procTime : ℚ) (key : Int) (r : TranscriptionResult)
    (recents2 : List String) (st : TranscriberState)
    (h : lookupCache st.cache key = none) :
    lookupCache (succUpdate procTime key r recents2 st).cache key = some r := by
  unfold succUpdate
  dsimp only
  split
  next hlen =>
    rcases hc : st.cache with _ | ⟨p, rest⟩
    · rw [hc] at hlen
      simp at hlen
    · rw [List.cons_append, List.tail_cons]
      apply lookupCache_append_self
      rw [hc] at h
      unfold lookupCache at h
      by_cases hk : key = p.1
      · rw [if_pos hk] at h
        cases h
      · rw [if_neg hk] at h
        exact h
  next hlen => exact lookupCache_append_self _ _ _ h

theorem process_audio_hit (env : TranscriberEnv) (procTime tStamp : ℚ)
    (seg : AudioSegment) (st : TranscriberState) (bytes : List (Fin 256))
    (r : TranscriptionResult) (ha : seg.audio = some bytes) (hne : bytes ≠ [])
    (hr : lookupCache st.cache (cacheKeyOf env.hashFn bytes) = some r) :
    process_audio env procTime tStamp seg st =
      (some r, { st with cache_hits := st.cache_hits + 1 }) := by
  unfold process_audio
  rw [ha]
  simp only [hne, if_neg, hr]
  simp [hne]

theorem process_audio_success (env : TranscriberEnv) (procTime tStamp : ℚ)
    (seg : AudioSegment) (st : TranscriberState) (bytes : List (Fin 256))
    (raw : RawTranscription) (p : String) (recents2 : List String)
    (ha : seg.audio = some bytes) (hne : bytes ≠ [])
    (hmiss : lookupCache st.cache (cacheKeyOf env.hashFn bytes) = none)
    (hrec : env.recognize bytes = some raw)
    (hpt : process_text st.recent_texts raw.text = (some p, recents2))
    (hp : p ≠ "") :
    process_audio env procTime tStamp seg st =
      (some (mkResult env procTime tStamp seg raw p),
       succUpdate procTime (cacheKeyOf env.hashFn bytes)
         (mkResult env procTime tStamp seg raw p) recents2 st) := by
  unfold process_audio
  rw [ha]
  simp [hne, hmiss, hrec, hpt, hp]

theorem process_audio_miss_inv (env : TranscriberEnv) (procTime tStamp : ℚ)
    (seg : AudioSegment) (st : TranscriberState) (bytes : List (Fin 256))
    (r1 : TranscriptionResult) (st1 : TranscriberState)
    (ha : seg.audio = some bytes) (hne : bytes ≠ [])
    (hmiss : lookupCache st.cache (cacheKeyOf env.hashFn bytes) = none)
    (h : process_audio env procTime tStamp seg st = (some r1, st1)) :
    ∃ raw p recents2,
      env.recognize bytes = some raw ∧
      process_text st.recent_texts raw.text = (some p, recents2) ∧
      p ≠ "" ∧
      r1 = mkResult env procTime tStamp seg raw p ∧
      st1 = succUpdate procTime (cacheKeyOf env.hashFn bytes) r1 recents2 st := by
  rcases hrec : env.recognize bytes with _ | raw
  · unfold process_audio at h
    rw [ha] at h
    simp [hne, hmiss, hrec] at h
  · rcases hpt : process_text st.recent_texts raw.text with ⟨po, recents2⟩
    rcases po with _ | p
    · unfold process_audio at h
      rw [ha] at h
      simp [hne, hmiss, hrec, hpt] at h
    · by_cases hp : p = ""
      · unfold process_audio at h
        rw [ha] at h
        simp [hne, hmiss, hrec, hpt, hp] at h
      · unfold process_audio at h
        rw [ha] at h
        simp [hne, hmiss, hrec, hpt, hp] at h
        refine ⟨raw, p, recents2, rfl, hpt, hp, ?_, ?_⟩
        · exact h.1.symm
        · rw [← h.2, h.1]

/-- Claim C1: on a cache hit process_audio returns the cached result at
once, increments only cache_hits, and leaves total_processed (and the
whole remaining state) unchanged; hence transcribing the same sample
bytes twice returns the same result object both times, with only the
first call able to increment total_processed. -/
theorem process_audio_cache_hit_spec (env : TranscriberEnv)
    (pt1 ts1 pt2 ts2 : ℚ) (seg1 seg2 : AudioSegment) (st : TranscriberState)
    (bytes : List (Fin 256))
    (ha1 : seg1.audio = some bytes) (ha2 : seg2.audio = some bytes)
    (hne : bytes ≠ []) :
    (∀ r, lookupCache st.cache (cacheKeyOf env.hashFn bytes) = some r →
      process_audio env pt1 ts1 seg1 st =
        (some r, { st with cache_hits := st.cache_hits + 1 })) ∧
    (∀ r1 st1, process_audio env pt1 ts1 seg1 st = (some r1, st1) →
      process_audio env pt2 ts2 seg2 st1 =
        (some r1, { st1 with cache_hits := st1.cache_hits + 1 }) ∧
      (lookupCache st.cache (cacheKeyOf env.hashFn bytes) = none →
        st1.total_processed = st.total_processed + 1)) := by
  constructor
  · intro r hr
    exact process_audio_hit env pt1 ts1 seg1 st bytes r ha1 hne hr
  · intro r1 st1 h1
    rcases hl : lookupCache st.cache (cacheKeyOf env.hashFn bytes) with _ | r
    · obtain ⟨raw, p, recents2, hrec, hpt, hp, hr1, hst1⟩ :=
        process_audio_miss_inv env pt1 ts1 seg1 st bytes r1 st1 ha1 hne hl h1
      constructor
      · apply process_audio_hit env pt2 ts2 seg2 st1 bytes r1 ha2 hne
        rw [hst1]
        exact lookupCache_succUpdate pt1 (cacheKeyOf env.hashFn bytes) r1 recents2 st hl
      · intro _
        rw [hst1]
        rfl
    · have heq := process_audio_hit env pt1 ts1 seg1 st bytes r ha1 hne hl
      rw [heq] at h1
      have hr1 : r = r1 := congrArg (fun q => (Prod.fst q).getD r) h1
      have hst1 : ({ st with cache_hits := st.cache_hits + 1 } : TranscriberState) = st1 :=
        congrArg Prod.snd h1
      constructor
      · apply process_audio_hit env pt2 ts2 seg2 st1 bytes r1 ha2 hne
        rw [← hst1, ← hr1]
        exact hl
      · intro hnone
        exact absurd hnone (by simp)

def c1Env : TranscriberEnv :=
  { hashFn := fun _ => 0,
    recognize := fun _ => some { text := "hello", language := "en", confidence := 1 },
    translateFn := fun _ _ => none,
    translator_enabled := false,
    translate_to := "ko" }

def c1Seg : AudioSegment := { audio := some [0], duration := 1 }

/-- Claim C1 witness: the theorem applied at a concrete environment,
segment and initial state. -/
theorem process_audio_cache_hit_spec_witness :
    (∀ r, lookupCache initialTranscriberState.cache (cacheKeyOf c1Env.hashFn [0]) = some r →
      process_audio c1Env 0 0 c1Seg initialTranscriberState =
        (some r, { initialTranscriberState with
                    cache_hits := initialTranscriberState.cache_hits + 1 })) ∧
    (∀ r1 st1, process_audio c1Env 0 0 c1Seg initialTranscriberState = (some r1, st1) →
      process_audio c1Env 0 0 c1Seg st1 =
        (some r1, { st1 with cache_hits := st1.cache_hits + 1 }) ∧
      (lookupCache initialTranscriberState.cache (cacheKeyOf c1Env.hashFn [0]) = none →
        st1.total_processed = initialTranscriberState.total_processed + 1)) :=
  process_audio_cache_hit_spec c1Env 0 0 0 0 c1Seg c1Seg initialTranscriberState [0]
    rfl rfl (by decide)

theorem process_audio_no_audio (env : TranscriberEnv) (pt ts : ℚ)
    (seg : AudioSegment) (st : TranscriberState) (ha : seg.audio = none) :
    process_audio env pt ts seg st = (none, st) := by
  unfold process_audio
  rw [ha]

theorem process_audio_empty_audio (env : TranscriberEnv) (pt ts : ℚ)
    (seg : AudioSegment) (st : TranscriberState) (ha : seg.audio = some []) :
    process_audio env pt ts seg st = (none, st) := by
  unfold process_audio
  rw [ha]
  simp

theorem process_audio_recognize_none (env : TranscriberEnv) (pt ts : ℚ)
    (seg : AudioSegment) (st : TranscriberState) (bytes : List (Fin 256))
    (ha : seg.audio = some bytes) (hne : bytes ≠ [])
    (hmiss : lookupCache st.cache (cacheKeyOf env.hashFn bytes) = none)
    (hrec : env.recognize bytes = none) :
    process_audio env pt ts seg st = (none, st) := by
  unfold process_audio
  rw [ha]
  simp [hne, hmiss, hrec]

theorem process_audio_text_rejected (env : TranscriberEnv) (pt ts : ℚ)
    (seg : AudioSegment) (st : TranscriberState) (bytes : List (Fin 256))
    (raw : RawTranscription) (recents2 : List String)
    (ha : seg.audio = some bytes) (hne : bytes ≠ [])
    (hmiss : lookupCache st.cache (cacheKeyOf env.hashFn bytes) = none)
    (hrec : env.recognize bytes = some raw)
    (hpt : process_text st.recent_texts raw.text = (none, recents2)) :
    process_audio env pt ts seg st = (none, { st with recent_texts := recents2 }) := by
  unfold process_audio
  rw [ha]
  simp [hne, hmiss, hrec, hpt]

theorem process_audio_text_empty (env : TranscriberEnv) (pt ts : ℚ)
    (seg : AudioSegment) (st : TranscriberState) (bytes : List (Fin 256))
    (raw : RawTranscription) (recents2 : List String)
    (ha : seg.audio = some bytes) (hne : bytes ≠ [])
    (hmiss : lookupCache st.cache (cacheKeyOf env.hashFn bytes) = none)
    (hrec : env.recognize bytes = some raw)
    (hpt : process_text st.recent_texts raw.text = (some "", recents2)) :
    process_audio env pt ts seg st = (none, { st with recent_texts := recents2 }) := by
  unfold process_audio
  rw [ha]
  simp [hne, hmiss, hrec, hpt]

/-- Claim C5: after any process_audio call the cache stays within its
capacity of 100 entries; a hit leaves the cache untouched (no recency
refresh); an insertion into a full cache evicts exactly the
oldest-inserted entry (the head of the insertion order). -/
theorem process_audio_cache_bound_fifo (env : TranscriberEnv) (pt ts : ℚ)
    (seg : AudioSegment) (st : TranscriberState) (hcap : st.cache.length ≤ 100) :
    ((process_audio env pt ts seg st).2.cache.length ≤ 100) ∧
    (∀ bytes r, seg.audio = some bytes → bytes ≠ [] →
      lookupCache st.cache (cacheKeyOf env.hashFn bytes) = some r →
      (process_audio env pt ts seg st).2.cache = st.cache) ∧
    (∀ bytes r1 st1, seg.audio = some bytes → bytes ≠ [] →
      lookupCache st.cache (cacheKeyOf env.hashFn bytes) = none →
      st.cache.length = 100 →
      process_audio env pt ts seg st = (some r1, st1) →
      st1.cache = st.cache.tail ++ [(cacheKeyOf env.hashFn bytes, r1)]) := by
  refine ⟨?_, ?_, ?_⟩
  · rcases ha : seg.audio with _ | bytes
    · rw [process_audio_no_audio env pt ts seg st ha]
      exact hcap
    · by_cases hne : bytes = []
      · rw [hne] at ha
        rw [process_audio_empty_audio env pt ts seg st ha]
        exact hcap
      · rcases hl : lookupCache st.cache (cacheKeyOf env.hashFn bytes) with _ | r
        · rcases hrec : env.recognize bytes with _ | raw
          · rw [process_audio_recognize_none env pt ts seg st bytes ha hne hl hrec]
            exact hcap
          · rcases hpt : process_text st.recent_texts raw.text with ⟨po, recents2⟩
            rcases po with _ | p
            · rw [process_audio_text_rejected env pt ts seg st bytes raw recents2
                ha hne hl hrec hpt]
              exact hcap
            · by_cases hp : p = ""
              · rw [hp] at hpt
                rw [process_audio_text_empty env pt ts seg st bytes raw recents2
                  ha hne hl hrec hpt]
                exact hcap
              · rw [process_audio_success env pt ts seg st bytes raw p recents2
                  ha hne hl hrec hpt hp]
                unfold succUpdate
                dsimp only
                split
                · rw [List.length_tail, List.length_append]
                  simp
                  omega
                · rw [List.length_append] at *
                  simp at *
                  omega
        · rw [process_audio_hit env pt ts seg st bytes r ha hne hl]
          exact hcap
  · intro bytes r ha hne hr
    rw [process_audio_hit env pt ts seg st bytes r ha hne hr]
  · intro bytes r1 st1 ha hne hmiss hfull h
    obtain ⟨raw, p, recents2, hrec, hpt, hp, hr1, hst1⟩ :=
      process_audio_miss_inv env pt ts seg st bytes r1 st1 ha hne hmiss h
    rw [hst1]
    unfold succUpdate
    dsimp only
    rw [if_pos (by rw [List.length_append, hfull]; simp)]
    rcases hc : st.cache with _ | ⟨q, rest⟩
    · rw [hc] at hfull
      simp at hfull
    · rw [List.cons_append, List.tail_cons, List.tail_cons]

def c5Env : TranscriberEnv :=
  { hashFn := fun _ => 0,
    recognize := fun _ => some { text := "hello", language := "en", confidence := 1 },
    translateFn := fun _ _ => none,
    translator_enabled := false,
    translate_to := "ko" }

/-- Claim C5 witness: the theorem applied at a concrete environment,
segment and the initial (empty-cache) state. -/
theorem process_audio_cache_bound_fifo_witness :
    ((process_audio c5Env 0 0 { audio := some [1], duration := 1 }
        initialTranscriberState).2.cache.length ≤ 100) ∧
    (∀ bytes r, ({ audio := some [1], duration := 1 } : AudioSegment).audio = some bytes →
      bytes ≠ [] →
      lookupCache initialTranscriberState.cache (cacheKeyOf c5Env.hashFn bytes) = some r →
      (process_audio c5Env 0 0 { audio := some [1], duration := 1 }
        initialTranscriberState).2.cache = initialTranscriberState.cache) ∧
    (∀ bytes r1 st1, ({ audio := some [1], duration := 1 } : AudioSegment).audio = some bytes →
      bytes ≠ [] →
      lookupCache initialTranscriberState.cache (cacheKeyOf c5Env.hashFn bytes) = none →
      initialTranscriberState.cache.length = 100 →
      process_audio c5Env 0 0 { audio := some [1], duration := 1 }
        initialTranscriberState = (some r1, st1) →
      st1.cache = initialTranscriberState.cache.tail ++
        [(cacheKeyOf c5Env.hashFn bytes, r1)]) :=
  process_audio_cache_bound_fifo c5Env 0 0 { audio := some [1], duration := 1 }
    initialTranscriberState (by decide)

theorem histFold_eq_drop (rs : List TranscriptionResult) :
    rs.foldl historyAppend [] = rs.drop (rs.length - max_history) := by
  induction rs using List.reverseRecOn with
  | nil => rfl
  | append_singleton l a ih =>
    rw [List.foldl_append, List.foldl_cons, List.foldl_nil, ih]
    unfold historyAppend
    by_cases hlen : max_history < (l.drop (l.length - max_history) ++ [a]).length
    · rw [if_pos hlen]
      have hl100 : 100 ≤ l.length := by
        rw [List.length_append, List.length_drop] at hlen
        simp only [max_history] at hlen
        simp at hlen
        omega
      rcases hd : l.drop (l.length - max_history) with _ | ⟨x, xs⟩
      · exfalso
        have := congrArg List.length hd
        rw [List.length_drop] at this
        simp only [max_history] at this
        simp at this
        omega
      · rw [List.cons_append, List.tail_cons]
        have hxs : xs = l.drop (l.length - max_history + 1) := by
          have hh := congrArg List.tail hd
          rw [List.tail_drop] at hh
          rw [hh]
          rfl
        rw [hxs]
        have harith : (l ++ [a]).length - max_history = l.length - max_history + 1 := by
          rw [List.length_append]
          simp only [max_history, List.length_cons, List.length_nil]
          omega
        have hle : l.length - max_history + 1 ≤ l.length := by
          simp only [max_history]
          omega
        rw [harith, List.drop_append_of_le_length hle]
    · rw [if_neg hlen]
      have hlt : l.length < 100 := by
        rw [List.length_append, List.length_drop] at hlen
        simp only [max_history, List.length_cons, List.length_nil] at hlen
        omega
      have hle0 : l.length ≤ max_history := by
        simp only [max_history]
        omega
      rw [Nat.sub_eq_zero_of_le hle0, List.drop_zero]
      have h2 : (l ++ [a]).length - max_history = 0 := by
        rw [List.length_append]
        simp only [max_history, List.length_cons, List.length_nil]
        omega
      rw [h2, List.drop_zero]

/-- Claim C4: the session history never exceeds max_history (100)
entries; after any sequence of accepted results starting from the fresh
manager, the history is exactly the most recent entries in arrival
order, the oldest evicted first; once more than 100 results were
accepted it holds exactly 100. -/
theorem transcription_history_bound (rs : List TranscriptionResult) :
    rs.foldl historyAppend [] = rs.drop (rs.length - max_history) ∧
    (rs.foldl historyAppend []).length ≤ max_history ∧
    (max_history < rs.length → (rs.foldl historyAppend []).length = max_history) := by
  refine ⟨histFold_eq_drop rs, ?_, ?_⟩
  · rw [histFold_eq_drop rs, List.length_drop]
    simp [max_history]
    omega
  · intro hgt
    rw [histFold_eq_drop rs, List.length_drop]
    simp only [max_history] at hgt ⊢
    omega

/-- Claim C6 (amended): within one process_segment call, the statistics
count and the cache insertion change in the same critical section: every
observable state shows the result counted exactly when its cache entry
is present.  (The history append is a separate critical section; see the
counterexample.) -/
theorem stats_and_cache_update_atomic (env : TranscriberEnv) (pt ts : ℚ)
    (seg : AudioSegment) (st : TranscriberState) (hist : List TranscriptionResult)
    (bytes : List (Fin 256)) (raw : RawTranscription) (p : String)
    (recents2 : List String)
    (ha : seg.audio = some bytes) (hne : bytes ≠ [])
    (hmiss : lookupCache st.cache (cacheKeyOf env.hashFn bytes) = none)
    (hrec : env.recognize bytes = some raw)
    (hpt : process_text st.recent_texts raw.text = (some p, recents2))
    (hp : p ≠ "") :
    ∀ ob ∈ process_segment_observables env pt ts seg st hist,
      (ob.total_processed = st.total_processed + 1 ↔
        lookupCache ob.cache (cacheKeyOf env.hashFn bytes) ≠ none) := by
  have hsucc := process_audio_success env pt ts seg st bytes raw p recents2
    ha hne hmiss hrec hpt hp
  intro ob hob
  unfold process_segment_observables at hob
  rw [hsucc] at hob
  simp only [List.mem_cons, List.not_mem_nil, or_false] at hob
  rcases hob with h | h | h
  · subst h
    simp only [mkObs]
    constructor
    · intro hcon
      omega
    · intro hcon
      exact absurd hmiss hcon
  · subst h
    simp only [mkObs]
    constructor
    · intro _
      rw [lookupCache_succUpdate pt _ _ recents2 st hmiss]
      simp
    · intro _
      rfl
  · subst h
    simp only [mkObs]
    constructor
    · intro _
      rw [lookupCache_succUpdate pt _ _ recents2 st hmiss]
      simp
    · intro _
      rfl

def c6Env : TranscriberEnv :=
  { hashFn := fun _ => 0,
    recognize := fun _ => some { text := "hello", language := "ko", confidence := 1 },
    translateFn := fun _ _ => none,
    translator_enabled := false,
    translate_to := "ko" }

def c6Seg : AudioSegment := { audio := some [2], duration := 1 }

/-- Claim C6 counterexample: in a concrete run there is an observable
point at which the result is counted in the statistics
(total_processed = 1) while still absent from the session history. -/
theorem stats_counted_before_history_append :
    ∃ ob ∈ process_segment_observables c6Env 0 0 c6Seg initialTranscriberState [],
      ob.total_processed = 1 ∧ ob.history = [] := by decide

/-- Claim C6 witness: the atomicity theorem applied at the intermediate
observable state of a concrete run. -/
theorem stats_and_cache_update_atomic_witness :
    ((process_segment_observables c6Env 0 0 c6Seg initialTranscriberState []).getD 1
        (mkObs initialTranscriberState [])).total_processed =
      initialTranscriberState.total_processed + 1 ↔
    lookupCache
        ((process_segment_observables c6Env 0 0 c6Seg initialTranscriberState []).getD 1
          (mkObs initialTranscriberState [])).cache
        (cacheKeyOf c6Env.hashFn [2]) ≠ none :=
  stats_and_cache_update_atomic c6Env 0 0 c6Seg initialTranscriberState [] [2]
    { text := "hello", language := "ko", confidence := 1 } "hello" ["hello"]
    rfl (by decide) rfl rfl (by decide) (by decide) _ (by decide)

/-- Claim C7 (amended): when the speech-recognition step yields no usable
text, process_audio returns None and leaves the whole state — statistics
and success_rate included — unchanged (the success-rate decay sits only
in the exception handler, which this path does not take). -/
theorem recognition_failure_drops_clip (env : TranscriberEnv) (pt ts : ℚ)
    (seg : AudioSegment) (st : TranscriberState) (bytes : List (Fin 256))
    (ha : seg.audio = some bytes) (hne : bytes ≠ [])
    (hmiss : lookupCache st.cache (cacheKeyOf env.hashFn bytes) = none)
    (hrec : env.recognize bytes = none) :
    process_audio env pt ts seg st = (none, st) :=
  process_audio_recognize_none env pt ts seg st bytes ha hne hmiss hrec

def c7Env : TranscriberEnv :=
  { hashFn := fun _ => 0,
    recognize := fun _ => none,
    translateFn := fun _ _ => none,
    translator_enabled := false,
    translate_to := "ko" }

def c7Seg : AudioSegment := { audio := some [3], duration := 1 }

/-- Claim C7 counterexample: on a concrete no-text run process_audio
returns None but the success_rate statistic is not multiplied by its
decay factor 0.9 — the state is unchanged. -/
theorem recognition_failure_no_success_rate_decay :
    process_audio c7Env 0 0 c7Seg initialTranscriberState =
      (none, initialTranscriberState) ∧
    (process_audio c7Env 0 0 c7Seg initialTranscriberState).2.success_rate = 1 ∧
    (1 : ℚ) ≠ (9 / 10) * 1 := by
  refine ⟨by decide, by decide, by norm_num⟩

/-- Claim C7 witness: the amended theorem at a concrete input. -/
theorem recognition_failure_drops_clip_witness :
    process_audio c7Env 0 0 c7Seg initialTranscriberState =
      (none, initialTranscriberState) :=
  recognition_failure_drops_clip c7Env 0 0 c7Seg initialTranscriberState [3]
    rfl (by decide) rfl rfl

theorem bounded_hash_has_collision (hashFn : List (Fin 256) → Int)
    (hb : PyHashBounded hashFn) :
    ∃ b1 b2 : List (Fin 256), b1 ≠ b2 ∧ hashFn b1 = hashFn b2 := by
  have hfin : (Set.Icc (-(2 ^ 63) : Int) (2 ^ 63 - 1)).Finite := Set.finite_Icc _ _
  haveI := hfin.to_subtype
  obtain ⟨m, n, hmn, heq⟩ :=
    Finite.exists_ne_map_eq_of_infinite
      (fun n : ℕ => (⟨hashFn (List.replicate n 0), by
        obtain ⟨h1, h2⟩ := hb (List.replicate n 0)
        exact Set.mem_Icc.mpr ⟨h1, by omega⟩⟩ :
        (Set.Icc (-(2 ^ 63) : Int) (2 ^ 63 - 1))))
  refine ⟨List.replicate m 0, List.replicate n 0, ?_, ?_⟩
  · intro hcon
    apply hmn
    have hlen := congrArg List.length hcon
    simpa using hlen
  · exact congrArg Subtype.val heq

/-- Claim C8 counterexample: no bounded (64-bit) hash yields a cache key
that differs for every pair of distinct byte strings — every admissible
hash has two distinct inputs with the same key, so false cache hits
cannot be excluded. -/
theorem no_injective_bounded_hash :
    ¬ ∃ hashFn, PyHashBounded hashFn ∧
      ∀ b1 b2 : List (Fin 256), b1 ≠ b2 →
        cacheKeyOf hashFn b1 ≠ cacheKeyOf hashFn b2 := by
  rintro ⟨hashFn, hb, hinj⟩
  obtain ⟨b1, b2, hne, heq⟩ := bounded_hash_has_collision hashFn hb
  exact hinj b1 b2 hne heq

/-- Claim C8 (amended): the cache key is deterministic — identical
sample bytes give identical keys — but it is a hash into a bounded
range, so for every admissible hash two distinct byte strings share a
key: false cache hits are possible in principle. -/
theorem cache_key_deterministic_not_injective :
    (∀ (hashFn : List (Fin 256) → Int) (b1 b2 : List (Fin 256)), b1 = b2 →
      cacheKeyOf hashFn b1 = cacheKeyOf hashFn b2) ∧
    (∀ hashFn : List (Fin 256) → Int, PyHashBounded hashFn →
      ∃ b1 b2, b1 ≠ b2 ∧ cacheKeyOf hashFn b1 = cacheKeyOf hashFn b2) := by
  constructor
  · intro hashFn b1 b2 h
    rw [h]
  · intro hashFn hb
    exact bounded_hash_has_collision hashFn hb

/-- Claim C9 (amended): once the stop flag is set the transcription
worker drains the whole remaining queue in FIFO order before exiting —
its final state is the fold of process_segment over every enqueued
clip — but the orchestrator's cleanup never joins the worker threads
(they are daemon threads). -/
theorem shutdown_drains_queue_without_join :
    (∀ (env : TranscriberEnv) (pt ts : ℚ) (queue : List AudioSegment)
      (s : TranscriberState × List TranscriptionResult),
      (transcribeWorkerDrain env pt ts queue s).1 =
        queue.foldl (fun acc seg => (process_segment env pt ts seg acc).2) s) ∧
    (∀ saveConfigured, CleanupAction.joinWorkerThreads ∉ cleanupActions saveConfigured) := by
  constructor
  · intro env pt ts queue
    induction queue with
    | nil =>
      intro s
      rfl
    | cons seg rest ih =>
      intro s
      rw [List.foldl_cons]
      unfold transcribeWorkerDrain
      dsimp only
      exact ih _
  · intro saveConfigured
    cases saveConfigured <;> decide

/-- Claim C9 counterexample: _cleanup performs no join of the worker
threads, whether or not auto-save is configured. -/
theorem cleanup_has_no_worker_join :
    CleanupAction.joinWorkerThreads ∉ cleanupActions true ∧
    CleanupAction.joinWorkerThreads ∉ cleanupActions false := by
  constructor <;> decide

/-- Claim C10: initialize_components passes the keyword argument
max_history that TranscriptionManager.__init__ does not accept; the
resulting TypeError is caught and the method returns False for every
configuration. -/
theorem initialize_components_always_fails :
    ∀ earlierStepsOk, initializeComponentsSucceeds earlierStepsOk = false := by
  intro b
  cases b <;> decide
